import Mathlib

/-!
Verification of the change-detection core of the `watch` package
(`watch.go`: `byteSliceMatch`, `targetDiff`, `Updated`, `OnInterval`,
`NewWatched`, `File`, `FileTarget`).

Modelling conventions.
* A Go `[]byte` is a `List Nat`; the Go `nil` slice is `[]` (the code can
  only distinguish nil from an empty slice through `len`, which agrees).
* `crypto/md5` is an external library; the model is parameterized by a
  digest function `hash : Bytes → Bytes`.  The facts the proofs need from
  the real `md5.Sum` (a 16-byte output; no collision among the contents
  actually observed) appear as explicit hypotheses on the theorems.
* `Watched.Content()` performs I/O, so each call's outcome is supplied to
  the model as an input of type `Except String Bytes` (`Except.error e`
  standing for a non-nil Go error with text `e`).
* A `watcher` value carries the one bit of the target the core logic reads
  (`target.FailOpen()`) together with the mutable `lastHash` field; the
  content stream is fed in call by call as described above.
-/

namespace Watch

/-- Go `[]byte`, with the `nil` slice represented by `[]`. -/
abbrev Bytes := List Nat

/-- `byteSliceMatch` from watch.go: report length mismatch as `false`,
otherwise compare elementwise. -/
def byteSliceMatch (a b : Bytes) : Bool :=
  if a.length ≠ b.length then
    false
  else
    (List.range a.length).all fun i => a.getD i 0 == b.getD i 0

/-- The `watcher` struct: `targetFailOpen` models `w.target.FailOpen()`
(immutable once constructed), `lastHash` the mutable fingerprint field. -/
structure watcher where
  targetFailOpen : Bool
  lastHash : Bytes
  deriving DecidableEq

/-- `targetDiff` from watch.go.  `fetch` is the outcome of the call
`w.target.Content()`; `token` is the fingerprint passed by the caller. -/
def watcher.targetDiff (hash : Bytes → Bytes) (w : watcher)
    (fetch : Except String Bytes) (token : Bytes) :
    Bytes × Bool × Option String :=
  match fetch with
  | Except.error e =>
      ([], w.targetFailOpen, some ("Unable to get target content: " ++ e))
  | Except.ok content =>
      let hsh := hash content
      if byteSliceMatch hsh token then (token, false, none)
      else (hsh, true, none)

/-- `Updated` from watch.go: run `targetDiff` against the stored
`lastHash`; store the returned fingerprint only when the error is nil.
Returns `(diff, err, updated watcher)`. -/
def watcher.Updated (hash : Bytes → Bytes) (w : watcher)
    (fetch : Except String Bytes) : Bool × Option String × watcher :=
  let r := w.targetDiff hash fetch w.lastHash
  match r.2.2 with
  | none => (r.2.1, none, { w with lastHash := r.1 })
  | some e => (r.2.1, some e, w)

/-- `NewWatched` from watch.go: `&watcher{target, nil}` — the fingerprint
starts as the nil slice. -/
def NewWatched (targetFailOpen : Bool) : watcher :=
  ⟨targetFailOpen, []⟩

/-- The `watchedFile` struct from watch.go. -/
structure watchedFile where
  path : String
  failOpen : Bool
  deriving DecidableEq

/-- `FileTarget` from watch.go. -/
def FileTarget (path : String) (failOpen : Bool) : watchedFile :=
  ⟨path, failOpen⟩

/-- The `FailOpen` accessor of `watchedFile`. -/
def watchedFile.FailOpen (wf : watchedFile) : Bool :=
  wf.failOpen

/-- `File` from watch.go: `NewWatched(FileTarget(path, true))`. -/
def File (path : String) : watcher :=
  NewWatched ((FileTarget path true).FailOpen)

/-- One tick of the `OnInterval` background loop (the `case <-ticker.C`
branch): run `targetDiff` against the loop's private `lastHash`; only when
the error is nil and `updated` holds does the loop store the fingerprint
and attempt an emission.  Returns `(new private lastHash, emitted)`. -/
def watcher.OnIntervalTick (hash : Bytes → Bytes) (w : watcher)
    (fetch : Except String Bytes) (lastHash : Bytes) : Bytes × Bool :=
  let r := w.targetDiff hash fetch lastHash
  match r.2.2 with
  | none => if r.2.1 then (r.1, true) else (lastHash, false)
  | some _ => (lastHash, false)

/-- Iterate `Updated` over a sequence of fetch outcomes, collecting the
`(diff, err)` pairs returned to the caller. -/
def runUpdated (hash : Bytes → Bytes) (w : watcher) :
    List (Except String Bytes) → List (Bool × Option String)
  | [] => []
  | f :: fs =>
      let r := w.Updated hash f
      (r.1, r.2.1) :: runUpdated hash r.2.2 fs

/-- Final watcher state after iterating `Updated` over a sequence of fetch
outcomes. -/
def runUpdatedState (hash : Bytes → Bytes) (w : watcher) :
    List (Except String Bytes) → watcher
  | [] => w
  | f :: fs => runUpdatedState hash (w.Updated hash f).2.2 fs

/-- Final private fingerprint of the background loop after a sequence of
ticks with the given fetch outcomes. -/
def runTicks (hash : Bytes → Bytes) (w : watcher) (lastHash : Bytes) :
    List (Except String Bytes) → Bytes
  | [] => lastHash
  | f :: fs => runTicks hash w (w.OnIntervalTick hash f lastHash).1 fs

/-- Spec-side description of the outputs of a sequence of `updated()`
calls, written from the spec's words (§4.2, §8): a failed fetch reports
`changed = failOpen` with the error; a successful fetch reports
`changed = true` exactly when its content differs, as a byte sequence,
from the most recently successfully-fetched content before that call
(always `true` when there is no such content). -/
def specUpdatedOutputs (fo : Bool) (prev : Option Bytes) :
    List (Except String Bytes) → List (Bool × Option String)
  | [] => []
  | Except.error e :: fs =>
      (fo, some ("Unable to get target content: " ++ e)) ::
        specUpdatedOutputs fo prev fs
  | Except.ok c :: fs =>
      ((match prev with
        | none => true
        | some p => decide (c ≠ p)), none) ::
        specUpdatedOutputs fo (some c) fs

/-- The content carried by a successful fetch outcome, if any. -/
def okBytes : Except String Bytes → Option Bytes
  | Except.ok c => some c
  | Except.error _ => none

/-- The fingerprint a watcher holds after last successfully observing
`prev` (`none` = never, i.e. the nil slice). -/
def prevHash (hash : Bytes → Bytes) : Option Bytes → Bytes
  | none => []
  | some p => hash p

/-- A constant 16-byte digest function, used to instantiate theorems at
concrete inputs. -/
def constHash16 : Bytes → Bytes :=
  fun _ => List.replicate 16 0

/-- A 16-byte digest function that is injective on short inputs, used to
instantiate theorems at concrete inputs. -/
def padHash (c : Bytes) : Bytes :=
  (c ++ List.replicate 16 0).take 16

/-- `byteSliceMatch` decides byte-for-byte equality (including length). -/
theorem byteSliceMatch_eq_true_iff (a b : Bytes) :
    byteSliceMatch a b = true ↔ a = b := by
  constructor
  · intro h
    unfold byteSliceMatch at h
    split at h
    · cases h
    · rename_i hlen
      rw [not_ne_iff] at hlen
      refine List.ext_getElem hlen ?_
      intro i h1 h2
      have hall := List.all_eq_true.mp h i (List.mem_range.mpr h1)
      have ha : a.getD i 0 = a[i] := by
        simp [List.getD_eq_getElem?_getD, List.getElem?_eq_getElem h1]
      have hb : b.getD i 0 = b[i] := by
        simp [List.getD_eq_getElem?_getD, List.getElem?_eq_getElem h2]
      have heq : a.getD i 0 = b.getD i 0 := by simpa using hall
      rw [ha, hb] at heq
      exact heq
  · rintro rfl
    unfold byteSliceMatch
    simp

/-- Length mismatch makes `byteSliceMatch` report `false`. -/
theorem byteSliceMatch_length_ne (a b : Bytes) (h : a.length ≠ b.length) :
    byteSliceMatch a b = false := by
  unfold byteSliceMatch
  simp [h]

/-- `Updated` on a successful fetch, in closed form. -/
theorem Updated_ok (hash : Bytes → Bytes) (w : watcher) (c : Bytes) :
    w.Updated hash (Except.ok c) =
      if byteSliceMatch (hash c) w.lastHash then (false, none, w)
      else (true, none, ⟨w.targetFailOpen, hash c⟩) := by
  unfold watcher.Updated watcher.targetDiff
  by_cases hb : byteSliceMatch (hash c) w.lastHash <;> simp [hb]

/-- `Updated` on a failed fetch, in closed form. -/
theorem Updated_error (hash : Bytes → Bytes) (w : watcher) (e : String) :
    w.Updated hash (Except.error e) =
      (w.targetFailOpen, some ("Unable to get target content: " ++ e), w) :=
  rfl

/-- A loop tick on a failed fetch, in closed form. -/
theorem OnIntervalTick_error (hash : Bytes → Bytes) (w : watcher)
    (e : String) (lh : Bytes) :
    w.OnIntervalTick hash (Except.error e) lh = (lh, false) :=
  rfl

/-- A loop tick on a successful fetch, in closed form. -/
theorem OnIntervalTick_ok (hash : Bytes → Bytes) (w : watcher)
    (c : Bytes) (lh : Bytes) :
    w.OnIntervalTick hash (Except.ok c) lh =
      if byteSliceMatch (hash c) lh then (lh, false) else (hash c, true) := by
  unfold watcher.OnIntervalTick watcher.targetDiff
  by_cases hb : byteSliceMatch (hash c) lh <;> simp [hb]

/-- A loop tick reads the watcher only through the immutable
`targetFailOpen` field — and on the emission decision not even that. -/
theorem OnIntervalTick_state_irrel (hash : Bytes → Bytes) (w w' : watcher)
    (f : Except String Bytes) (lh : Bytes) :
    w.OnIntervalTick hash f lh = w'.OnIntervalTick hash f lh := by
  cases f with
  | error e => rfl
  | ok c => rw [OnIntervalTick_ok, OnIntervalTick_ok]

/-- Trace invariant for repeated `Updated` calls: starting from a watcher
whose stored fingerprint is the digest of the most recently
successfully-observed content (the nil slice when there is none), the
outputs match the spec-side description, provided the digest has 16-byte
outputs and distinguishes the contents appearing in the trace. -/
theorem runUpdated_spec_aux (hash : Bytes → Bytes) (fo : Bool)
    (fs : List (Except String Bytes)) :
    ∀ (prev : Option Bytes),
      (∀ c, Except.ok c ∈ fs → (hash c).length = 16) →
      (∀ a b, (Except.ok a ∈ fs ∨ prev = some a) →
        (Except.ok b ∈ fs ∨ prev = some b) → hash a = hash b → a = b) →
      runUpdated hash ⟨fo, prevHash hash prev⟩ fs =
        specUpdatedOutputs fo prev fs := by
  induction fs with
  | nil => intro prev _ _; rfl
  | cons f fs ih =>
    intro prev hlen hinj
    have hlen' : ∀ c, Except.ok c ∈ fs → (hash c).length = 16 :=
      fun c hc => hlen c (List.mem_cons_of_mem _ hc)
    cases f with
    | error e =>
      have hinj' : ∀ a b, (Except.ok a ∈ fs ∨ prev = some a) →
          (Except.ok b ∈ fs ∨ prev = some b) → hash a = hash b → a = b :=
        fun a b ha hb =>
          hinj a b (ha.imp (List.mem_cons_of_mem _) id)
            (hb.imp (List.mem_cons_of_mem _) id)
      simp only [runUpdated, Updated_error, specUpdatedOutputs]
      exact congrArg _ (ih prev hlen' hinj')
    | ok c =>
      have hcmem : Except.ok c ∈ Except.ok c :: fs := List.mem_cons_self _ _
      have hinjc : ∀ a b, (Except.ok a ∈ fs ∨ some c = some a) →
          (Except.ok b ∈ fs ∨ some c = some b) → hash a = hash b → a = b := by
        intro a b ha hb hab
        refine hinj a b ?_ ?_ hab
        · rcases ha with h | h
          · exact Or.inl (List.mem_cons_of_mem _ h)
          · rw [Option.some_inj] at h
            exact Or.inl (h ▸ hcmem)
        · rcases hb with h | h
          · exact Or.inl (List.mem_cons_of_mem _ h)
          · rw [Option.some_inj] at h
            exact Or.inl (h ▸ hcmem)
      cases prev with
      | none =>
        have hfalse : byteSliceMatch (hash c) [] = false := by
          apply byteSliceMatch_length_ne
          rw [hlen c hcmem]
          simp
        simp only [runUpdated, Updated_ok, prevHash, hfalse, Bool.false_eq_true,
          if_false, specUpdatedOutputs]
        exact congrArg _ (ih (some c) hlen' hinjc)
      | some p =>
        by_cases hb : byteSliceMatch (hash c) (hash p)
        · have hcp : c = p :=
            hinj c p (Or.inl hcmem) (Or.inr rfl)
              ((byteSliceMatch_eq_true_iff _ _).mp hb)
          subst hcp
          simp only [runUpdated, Updated_ok, prevHash, hb, if_true,
            specUpdatedOutputs, ne_eq, not_true_eq_false, decide_False]
          exact congrArg _ (ih (some c) hlen' hinjc)
        · have hcne : c ≠ p := by
            intro h
            rw [h] at hb
            exact hb ((byteSliceMatch_eq_true_iff _ _).mpr rfl)
          simp only [runUpdated, Updated_ok, prevHash, hb, if_false,
            specUpdatedOutputs, ne_eq, hcne, not_false_eq_true, decide_True]
          exact congrArg _ (ih (some c) hlen' hinjc)

/-- C1: over any sequence of fetch outcomes, `Updated` reports
`changed = true` exactly on those successful calls whose content differs,
as a byte sequence, from the most recently successfully-fetched content
before that call (and on the first successful call), with a nil error on
every successful call — in particular two immediately successive calls
with unchanged content after the first observation both return
`(false, nil)`.  The digest is assumed 16 bytes wide and collision-free on
the contents of the trace, the facts the code obtains from `md5.Sum`. -/
theorem updated_reports_change_exactly_on_content_change
    (hash : Bytes → Bytes) (fo : Bool) (fs : List (Except String Bytes))
    (hlen : ∀ c ∈ fs.filterMap okBytes, (hash c).length = 16)
    (hinj : ∀ a ∈ fs.filterMap okBytes, ∀ b ∈ fs.filterMap okBytes,
      hash a = hash b → a = b) :
    runUpdated hash (NewWatched fo) fs = specUpdatedOutputs fo none fs := by
  have hmem : ∀ c, Except.ok c ∈ fs → c ∈ fs.filterMap okBytes := by
    intro c hc
    exact List.mem_filterMap.mpr ⟨Except.ok c, hc, rfl⟩
  have h1 : ∀ c, Except.ok c ∈ fs → (hash c).length = 16 :=
    fun c hc => hlen c (hmem c hc)
  have h2 : ∀ a b, (Except.ok a ∈ fs ∨ (none : Option Bytes) = some a) →
      (Except.ok b ∈ fs ∨ (none : Option Bytes) = some b) →
      hash a = hash b → a = b := by
    intro a b ha hb hab
    rcases ha with ha | ha
    · rcases hb with hb | hb
      · exact hinj a (hmem a ha) b (hmem b hb) hab
      · cases hb
    · cases ha
  exact runUpdated_spec_aux hash fo fs none h1 h2

/-- Witness for C1 on a concrete trace with an error interleaved. -/
theorem updated_reports_change_exactly_on_content_change_witness :
    runUpdated padHash (NewWatched true)
        [Except.ok [1], Except.error ("e"), Except.ok [1], Except.ok [2]] =
      specUpdatedOutputs true none
        [Except.ok [1], Except.error ("e"), Except.ok [1], Except.ok [2]] :=
  updated_reports_change_exactly_on_content_change padHash true _
    (by decide) (by decide)

/-- C2: over a target whose every fetch fails, each `Updated` call returns
`changed = failOpen` together with the error, from any watcher state —
`(true, error)` when fail-open, `(false, error)` when fail-closed. -/
theorem updated_on_fetch_failure_returns_failOpen (hash : Bytes → Bytes)
    (fo : Bool) (h : Bytes) (errs : List String) :
    runUpdated hash ⟨fo, h⟩ (errs.map Except.error) =
      errs.map fun e => (fo, some ("Unable to get target content: " ++ e)) := by
  induction errs generalizing h with
  | nil => rfl
  | cons e es ih =>
    simp only [List.map_cons, runUpdated, Updated_error]
    exact congrArg _ (ih h)

/-- C3: the first `Updated` call of a freshly constructed watcher whose
fetch succeeds reports `changed = true`, whatever the content (including
empty content): a 16-byte digest never byte-equals the absent (nil)
fingerprint. -/
theorem first_updated_success_reports_change (hash : Bytes → Bytes)
    (fo : Bool) (c : Bytes) (hlen : (hash c).length = 16) :
    ((NewWatched fo).Updated hash (Except.ok c)).1 = true := by
  rw [Updated_ok]
  have hfalse : byteSliceMatch (hash c) (NewWatched fo).lastHash = false := by
    apply byteSliceMatch_length_ne
    rw [hlen]
    simp [NewWatched]
  simp [hfalse]

/-- Witness for C3 at empty content. -/
theorem first_updated_success_reports_change_witness :
    (constHash16 []).length = 16 ∧
      ((NewWatched true).Updated constHash16 (Except.ok [])).1 = true :=
  ⟨by decide, first_updated_success_reports_change constHash16 true [] (by decide)⟩

/-- C4: whenever `Updated` reports a non-nil error, the watcher — in
particular its stored `lastHash` fingerprint — is left exactly as it was
before the call. -/
theorem updated_error_leaves_state_unchanged (hash : Bytes → Bytes)
    (w : watcher) (f : Except String Bytes)
    (herr : (w.Updated hash f).2.1 ≠ none) :
    (w.Updated hash f).2.2 = w := by
  cases f with
  | error e => rw [Updated_error]
  | ok c =>
    exfalso
    apply herr
    rw [Updated_ok]
    by_cases hb : byteSliceMatch (hash c) w.lastHash <;> simp [hb]

/-- Witness for C4 at a failing fetch. -/
theorem updated_error_leaves_state_unchanged_witness :
    ((⟨true, [1]⟩ : watcher).Updated constHash16 (Except.error ("x"))).2.1 ≠ none ∧
      ((⟨true, [1]⟩ : watcher).Updated constHash16 (Except.error ("x"))).2.2 =
        (⟨true, [1]⟩ : watcher) :=
  ⟨by decide, updated_error_leaves_state_unchanged constHash16 ⟨true, [1]⟩
    (Except.error ("x")) (by decide)⟩

/-- C5 counterexample: on a failed fetch with prior token `[1]`, the
fingerprint component `targetDiff` returns is the nil slice, not the
caller's prior token. -/
theorem targetDiff_error_fingerprint_not_token :
    ((⟨true, [1]⟩ : watcher).targetDiff constHash16
        (Except.error ("boom")) [1]).1 ≠ [1] := by
  decide

/-- C5 (amended): on a failed fetch `targetDiff` returns the nil slice as
the fingerprint component of its result — not the caller's prior token —
together with `changed = target.failOpen()` and the error; `Updated`
discards the returned fingerprint on error, so the stored fingerprint is
still left unchanged. -/
theorem targetDiff_error_returns_nil_fingerprint (hash : Bytes → Bytes)
    (w : watcher) (e : String) (token : Bytes) :
    w.targetDiff hash (Except.error e) token =
        ([], w.targetFailOpen, some ("Unable to get target content: " ++ e)) ∧
      (w.Updated hash (Except.error e)).2.2 = w :=
  ⟨rfl, by rw [Updated_error]⟩

/-- C6 counterexample: a tick whose fetch fails against a fail-open
target — where `targetDiff` does report `changed = true` — emits no
notification. -/
theorem onIntervalTick_failOpen_error_does_not_emit :
    ((⟨true, []⟩ : watcher).OnIntervalTick constHash16
          (Except.error ("boom")) []).2 = false ∧
      ((⟨true, []⟩ : watcher).targetDiff constHash16
          (Except.error ("boom")) []).2.1 = true :=
  ⟨rfl, rfl⟩

/-- C6 (amended): on every tick whose fetch fails — even against a
fail-open target, where the diff reports `changed = true` alongside the
error — the background loop emits nothing and leaves its private
fingerprint unchanged: the `err == nil` guard precedes the emission. -/
theorem onIntervalTick_error_is_noop (hash : Bytes → Bytes) (w : watcher)
    (e : String) (lh : Bytes) :
    w.OnIntervalTick hash (Except.error e) lh = (lh, false) ∧
      (w.targetDiff hash (Except.error e) lh).2.1 = w.targetFailOpen :=
  ⟨rfl, rfl⟩

/-- An interleaving event on one watcher: a manual `Updated` call or one
background-loop tick, each carrying its fetch outcome. -/
inductive Event where
  | manual (fetch : Except String Bytes)
  | loopTick (fetch : Except String Bytes)

/-- Fetch outcomes of the manual calls of an interleaving. -/
def manualFetches : List Event → List (Except String Bytes)
  | [] => []
  | Event.manual f :: es => f :: manualFetches es
  | Event.loopTick _ :: es => manualFetches es

/-- Fetch outcomes of the loop ticks of an interleaving. -/
def loopFetches : List Event → List (Except String Bytes)
  | [] => []
  | Event.manual _ :: es => loopFetches es
  | Event.loopTick f :: es => f :: loopFetches es

/-- Run an interleaving of manual calls and loop ticks over the combined
state (watcher state, loop's private fingerprint), exactly as the code
executes them: `Updated` assigns only `w.lastHash`, a tick assigns only
the loop's local `lastHash` variable. -/
def runSystem (hash : Bytes → Bytes) (w : watcher) (lh : Bytes) :
    List Event → watcher × Bytes
  | [] => (w, lh)
  | Event.manual f :: es => runSystem hash (w.Updated hash f).2.2 lh es
  | Event.loopTick f :: es => runSystem hash w (w.OnIntervalTick hash f lh).1 es

/-- The loop's fingerprint lineage does not depend on the watcher's
mutable state. -/
theorem runTicks_state_irrel (hash : Bytes → Bytes) (w w' : watcher)
    (lh : Bytes) (fs : List (Except String Bytes)) :
    runTicks hash w lh fs = runTicks hash w' lh fs := by
  induction fs generalizing lh with
  | nil => rfl
  | cons f fs ih =>
    simp only [runTicks, OnIntervalTick_state_irrel hash w w' f lh]
    exact ih _

/-- C7: running any interleaving of manual `Updated` calls and background
loop ticks leaves each path's fingerprint state exactly as running that
path alone would: no tick reads or writes the watcher's `lastHash`, and no
`Updated` call reads or writes the loop's private fingerprint. -/
theorem interleaved_runs_project_to_isolated_runs (hash : Bytes → Bytes)
    (w : watcher) (lh : Bytes) (es : List Event) :
    runSystem hash w lh es =
      (runUpdatedState hash w (manualFetches es),
        runTicks hash w lh (loopFetches es)) := by
  induction es generalizing w lh with
  | nil => rfl
  | cons e es ih =>
    cases e with
    | manual f =>
      simp only [runSystem, manualFetches, loopFetches, runUpdatedState]
      rw [ih]
      rw [runTicks_state_irrel hash (w.Updated hash f).2.2 w lh (loopFetches es)]
    | loopTick f =>
      simp only [runSystem, manualFetches, loopFetches, runTicks]
      exact ih w _

/-- C9: `byteSliceMatch` always returns a boolean verdict; it holds
exactly for byte-for-byte identical sequences (length included), and a
length mismatch — such as a 16-byte digest against the zero-length absent
token — always yields `false`. -/
theorem byteSliceMatch_correct (a b : Bytes) :
    (byteSliceMatch a b = true ↔ a = b) ∧
      (a.length ≠ b.length → byteSliceMatch a b = false) :=
  ⟨byteSliceMatch_eq_true_iff a b, byteSliceMatch_length_ne a b⟩

/-- Witness for C9: a 16-byte digest against the zero-length token. -/
theorem byteSliceMatch_correct_witness :
    byteSliceMatch (constHash16 []) [] = false :=
  (byteSliceMatch_correct (constHash16 []) []).2 (by decide)

/-- C10: `File` builds its watcher over a fail-open file target
(`FileTarget(path, true)`), so a fetch failure makes `Updated` report
`changed = true`. -/
theorem File_is_failOpen (path : String) (hash : Bytes → Bytes) (e : String) :
    (File path).targetFailOpen = true ∧
      ((File path).Updated hash (Except.error e)).1 = true :=
  ⟨rfl, rfl⟩

end Watch
